import Mathlib

set_option autoImplicit false

/-!
Verification of the uabean importers core against its specification.

The development shallowly embeds the Python source:
* `src/uabean/hooks.py` — the cross-statement transfer detector;
* `src/uabean/importers/alfa_business.py` and `ukrsib_business.py` —
  the same-statement entry merger (`Importer.merge_entries`);
* `src/uabean/importers/ibkr.py` — the lot / cost-basis tracker
  (`add_holding`, `get_and_reduce_holding`, `_adjust_holding`,
  the close branch of `stock_trades`, `Balances`);
* `src/uabean/importers/monobank.py` — balance-assertion dating.

Python `Decimal` values are embedded as exact rationals `Dec` (a numerator
with a positive denominator, kept normalized).  `Decimal` comparison is
numeric, as here; `round(x, n)` (banker's rounding, `ROUND_HALF_EVEN`, the
`decimal` context default) is embedded as `Dec.roundDec`.  `Decimal`
division rounds to 28 significant digits while `Dec.div` is exact; all
quantities compared after division in the source are rounded to 2 or 4
decimal places, far below that precision.  Regex matching of free-text
purpose fields is embedded as an already-parsed `Option` field on the
entry, since the claims are about the merge logic given a match, not about
the regex engine.
-/

namespace Uabean

/-- Decidable equality of `Except` results, used to evaluate the embedded
fallible operations on concrete inputs. -/
instance instDecEqExcept {ε α : Type} [DecidableEq ε] [DecidableEq α] :
    DecidableEq (Except ε α) := fun x y =>
  match x, y with
  | .ok a, .ok b =>
    if h : a = b then isTrue (by rw [h]) else isFalse (fun hh => by cases hh; exact h rfl)
  | .error a, .error b =>
    if h : a = b then isTrue (by rw [h]) else isFalse (fun hh => by cases hh; exact h rfl)
  | .ok _, .error _ => isFalse (fun hh => by cases hh)
  | .error _, .ok _ => isFalse (fun hh => by cases hh)

/-! ## Exact decimal arithmetic -/

/-- An exact rational number: numerator `n` over denominator `dm + 1`.
Values produced by the arithmetic below are normalized (coprime numerator
and denominator), and comparisons are numeric, so `Dec` is a faithful model
of Python `Decimal` values at the precisions this code base uses. -/
structure Dec where
  n : ℤ
  dm : ℕ
deriving DecidableEq

namespace Dec

/-- Denominator, as an integer (always positive). -/
def denZ (x : Dec) : ℤ := (x.dm : ℤ) + 1

/-- Denominator, as a natural number (always positive). -/
def den (x : Dec) : ℕ := x.dm + 1

/-- Normalizing constructor from a numerator and a positive denominator. -/
def mk2 (a : ℤ) (b : ℕ) : Dec :=
  let g := Nat.gcd a.natAbs b
  if g = 0 then ⟨0, 0⟩ else ⟨a / (g : ℤ), b / g - 1⟩

/-- Normalizing constructor from a numerator and a nonzero integer
denominator of either sign. -/
def mkZ (a b : ℤ) : Dec :=
  if b < 0 then mk2 (-a) (-b).toNat else mk2 a b.toNat

/-- Embedding of an integer. -/
def ofInt (a : ℤ) : Dec := ⟨a, 0⟩

/-- Embedding of a fraction literal. -/
def frac (a : ℤ) (b : ℕ) : Dec := mk2 a b

/-- The value zero. -/
def zero : Dec := ⟨0, 0⟩

/-- The value one. -/
def one : Dec := ⟨1, 0⟩

/-- Exact addition. -/
def add (x y : Dec) : Dec := mk2 (x.n * y.denZ + y.n * x.denZ) (x.den * y.den)

/-- Negation. -/
def neg (x : Dec) : Dec := ⟨-x.n, x.dm⟩

/-- Exact subtraction. -/
def sub (x y : Dec) : Dec := add x (neg y)

/-- Exact multiplication. -/
def mul (x y : Dec) : Dec := mk2 (x.n * y.n) (x.den * y.den)

/-- Exact division (division by a numeric zero yields zero; every division
in the embedded code is either guarded or covered by hypotheses). -/
def div (x y : Dec) : Dec := mkZ (x.n * y.denZ) (y.n * x.denZ)

/-- Absolute value. -/
def abs (x : Dec) : Dec := ⟨|x.n|, x.dm⟩

/-- Numeric equality test (Python `==` on `Decimal`). -/
def beq (x y : Dec) : Bool := x.n * y.denZ == y.n * x.denZ

/-- Numeric strict order (Python `<` on `Decimal`). -/
def blt (x y : Dec) : Bool := decide (x.n * y.denZ < y.n * x.denZ)

/-- Numeric order (Python `<=` on `Decimal`). -/
def ble (x y : Dec) : Bool := decide (x.n * y.denZ ≤ y.n * x.denZ)

/-- Floor of a `Dec` value. -/
def floorD (x : Dec) : ℤ := x.n.fdiv x.denZ

/-- Round to the nearest integer, ties to even: the semantics of Python
`round` on `Decimal` (context default `ROUND_HALF_EVEN`). -/
def roundHalfEven (x : Dec) : ℤ :=
  let f := floorD x
  let r := x.n - f * x.denZ
  if 2 * r < x.denZ then f
  else if x.denZ < 2 * r then f + 1
  else if f % 2 = 0 then f else f + 1

/-- `roundDec d x` embeds Python `round(x, d)` on `Decimal` values. -/
def roundDec (d : ℕ) (x : Dec) : Dec :=
  mk2 (roundHalfEven (mul x (ofInt (10 ^ d)))) (10 ^ d)

/-- Semantic value of a `Dec` as a rational number; used to state claims in
ordinary arithmetic terms. -/
def toQ (x : Dec) : ℚ := (x.n : ℚ) / ((x.dm : ℚ) + 1)

end Dec

/-! ## hooks.py — cross-statement transfer detector -/

namespace Hooks

/-- A posting as seen by `hooks.py`: only the account name and the units
number matter (`p.units` may be `None`, in which case the posting is skipped
when summing). -/
structure HPosting where
  account : String
  units : Option Dec
deriving DecidableEq

/-- A transaction as seen by `hooks.py`.  `id` stands for the object
identity; distinct extracted transactions are structurally distinct in the
source because their metadata carries distinct filename/line pairs.  `time`
is the parsed `meta["time"]` in seconds since midnight, when present. -/
structure HTxn where
  id : ℕ
  date : ℤ
  time : Option ℕ
  postings : List HPosting
deriving DecidableEq

/-- `are_values_oposit` from hooks.py.  The Python comparison
`round(..., 2) <= 0.01` compares a 2-decimal-place `Decimal` with the float
`0.01` (≈ 0.010000000000000000208); since the left side is an integer
multiple of 1/100, that comparison is equivalent to `≤ 1/100`. -/
def are_values_oposit (v1 v2 : Dec) : Bool :=
  if (Dec.zero.blt v1 && Dec.zero.blt v2) || (v1.blt Dec.zero && v2.blt Dec.zero)
  then false
  else if v2.beq Dec.zero then false
  else (Dec.roundDec 2 (((v1.div v2).abs.sub Dec.one).abs)).ble (Dec.frac 1 100)

/-- Account names of a posting list, in order. -/
def accountsOf (ps : List HPosting) : List String := ps.map (·.account)

/-- `same_accounts` from hooks.py: Python compares the two `set`s of posting
accounts; embedded as mutual list containment. -/
def same_accounts (t1 t2 : List HPosting) : Bool :=
  (accountsOf t1).all (fun a => (accountsOf t2).contains a) &&
  (accountsOf t2).all (fun a => (accountsOf t1).contains a)

/-- The key half of `get_transfer_info`: the date together with the
time-of-day rounded to the nearest hour (`to_nearest_time(..., unit="hour")`
computes `round(secs/3600)`, and `strftime("%H:%M:%S", gmtime(...))` wraps
24:00 to 00:00, hence the `% 24`).  Transactions without a recorded time get
the `"00:00:00"` bucket, i.e. hour 0. -/
def transferKey (e : HTxn) : ℤ × ℤ :=
  (e.date, match e.time with
    | none => 0
    | some s => Dec.roundHalfEven (Dec.frac (s : ℤ) 3600) % 24)

/-- The value half of `get_transfer_info`:
`sum((p.units.number for p in postings if p.units), Decimal(0))`. -/
def transferValue (e : HTxn) : Dec :=
  e.postings.foldl (fun acc p => match p.units with
    | none => acc
    | some n => acc.add n) Dec.zero

/-- Insertion-ordered `defaultdict(list)` read. -/
def alistGet (k : ℤ × ℤ) : List ((ℤ × ℤ) × List (Dec × ℕ)) → List (Dec × ℕ)
  | [] => []
  | (k1, v) :: rest => if k1 = k then v else alistGet k rest

/-- Insertion-ordered `defaultdict(list)` append. -/
def alistApp (k : ℤ × ℤ) (x : Dec × ℕ) :
    List ((ℤ × ℤ) × List (Dec × ℕ)) → List ((ℤ × ℤ) × List (Dec × ℕ))
  | [] => [(k, [x])]
  | (k1, v) :: rest =>
    if k1 = k then (k1, v ++ [x]) :: rest else (k1, v) :: alistApp k x rest

/-- Current postings of an entry object (the Python transactions are mutated
in place; the store maps object identity to the current posting list). -/
def postGet (i : ℕ) (post : List (ℕ × List HPosting)) : List HPosting :=
  match post.find? (fun p => p.1 == i) with
  | some p => p.2
  | none => []

/-- In-place `t1.postings.extend(t2.postings)` (`merge_transactions`). -/
def postApp (i : ℕ) (ps : List HPosting) :
    List (ℕ × List HPosting) → List (ℕ × List HPosting)
  | [] => []
  | (j, qs) :: rest =>
    if j = i then (j, qs ++ ps) :: rest else (j, qs) :: postApp i ps rest

/-- The inner loop of `detect_transfers`: scan the candidate list of the key
in insertion order; the first candidate passing
`are_values_oposit(v, other_v) and not same_accounts(other_entry, entry)`
wins.  `same_accounts` reads the candidate's *current* postings. -/
def findMatch (post : List (ℕ × List HPosting)) (e : HTxn) (v : Dec) :
    List (Dec × ℕ) → Option ℕ
  | [] => none
  | (ov, oid) :: rest =>
    if are_values_oposit v ov && !(same_accounts (postGet oid post) e.postings)
    then some oid
    else findMatch post e v rest

/-- Detector state: the `possible_transfers` map, the object store of
current postings, and the ids removed from their file's entry list. -/
structure DetectState where
  cands : List ((ℤ × ℤ) × List (Dec × ℕ))
  post : List (ℕ × List HPosting)
  removed : List ℕ
deriving DecidableEq

/-- Processing of one transaction by `detect_transfers`: on a match the
candidate absorbs the new entry's postings and the new entry is removed;
otherwise the new entry is stored as a fresh candidate. -/
def detectStep (s : DetectState) (e : HTxn) : DetectState :=
  let k := transferKey e
  let v := transferValue e
  match findMatch s.post e v (alistGet k s.cands) with
  | some oid =>
    { s with post := postApp oid e.postings s.post, removed := s.removed ++ [e.id] }
  | none =>
    { s with cands := alistApp k (v, e.id) s.cands, post := s.post ++ [(e.id, e.postings)] }

/-- `detect_transfers` over the extracted batch, one inner list per file.
Every entry of every file is visited in order over a snapshot
(`new_entries[:]`), sharing the `possible_transfers` map across files;
afterwards each file's list keeps its surviving entries with their final
(possibly extended) postings.  Only `Transaction` entries are modelled: the
source skips everything else untouched. -/
def detect_transfers (files : List (List HTxn)) : List (List HTxn) :=
  let s := files.foldl (fun s f => f.foldl detectStep s) ⟨[], [], []⟩
  files.map (fun f =>
    (f.filter (fun e => !(s.removed.contains e.id))).map (fun e =>
      match s.post.find? (fun p => p.1 == e.id) with
      | some p => { e with postings := p.2 }
      | none => e))

end Hooks

/-! ## alfa_business.py / ukrsib_business.py — same-statement entry merger

The two `Importer.merge_entries` methods are identical except that the Alfa
importer appends a fee posting in the conversion step while the Ukrsib one
does not, and the Ukrsib importer divides the parsed rate by 100.  The
embedding is parameterised by `Cfg` accordingly. -/

namespace Merger

/-- A posting as built by `get_entry_from_row`: account, units
(number and currency), optional price annotation. -/
structure MPosting where
  account : String
  number : Dec
  currency : String
  price : Option (Dec × String)
deriving DecidableEq

/-- The captures of `currency_conversion_regex`: counter-amount,
counter-currency, exchange rate and bank fee. -/
structure Conv where
  amount : Dec
  currency : String
  rate : Dec
  fee : Dec
deriving DecidableEq

/-- An entry as seen by `merge_entries`.  `id` stands for object identity
(extracted entries are structurally distinct because `new_metadata` gives
each row a distinct line number, so Python's `e == other` comparison is
identity on well-formed batches).  `conv` is the result of
`re.search(currency_conversion_regex, meta["src_purpose"])`, embedded as an
already-parsed option. -/
structure MEntry where
  id : ℕ
  date : ℤ
  srcDocN : String
  conv : Option Conv
  otherSrcDocN : Option String
  postings : List MPosting
deriving DecidableEq

instance : Inhabited MEntry := ⟨⟨0, 0, "", none, none, []⟩⟩

/-- Importer-specific parameters of `merge_entries`: whether the conversion
step appends a fee posting (Alfa: yes, Ukrsib: no), the factor applied to
the parsed rate (Alfa: 1, Ukrsib: 1/100), and `self.fee_account`. -/
structure Cfg where
  hasFeePosting : Bool
  rateScale : Dec
  feeAccount : String

/-- Current state of an entry object (entries are mutated in place; the
store maps object identity to the current object). -/
def storeGet (st : List MEntry) (i : ℕ) : MEntry :=
  match st.find? (fun e => e.id == i) with
  | some e => e
  | none => default

/-- In-place mutation of the entry object with identity `i`. -/
def storeModify (st : List MEntry) (i : ℕ) (f : MEntry → MEntry) : List MEntry :=
  st.map (fun e => if e.id = i then f e else e)

/-- Python `list.remove(x)`: drops the first occurrence, raises `ValueError`
when absent (reachable in `merge_entries`, e.g. three same-document entries
in one date group). -/
def removeStrict (l : List ℕ) (i : ℕ) : Except String (List ℕ) :=
  if l.contains i then .ok (l.erase i) else .error "ValueError: list.remove"

/-- `find_closest(l, other, predicate)`: first entry of `l` distinct from
`other` satisfying the predicate, evaluated on the current store. -/
def find_closest (st : List MEntry) (sub : List ℕ) (selfId : ℕ)
    (pred : MEntry → Bool) : Option ℕ :=
  match sub with
  | [] => none
  | x :: rest =>
    if x != selfId && pred (storeGet st x) then some x
    else find_closest st rest selfId pred

/-- The predicate of step A's `find_closest` call:
`x.meta["src_doc_n"] == e.meta["src_doc_n"]` for the scanned entry `e`. -/
def docPred (st : List MEntry) (e : ℕ) (x : MEntry) : Bool :=
  x.srcDocN == (storeGet st e).srcDocN

/-- The predicate of step B's `find_closest` call:
`x.postings[0].units == -units` for the parsed counter-units, where
`Amount` equality is componentwise. -/
def convPred (m : Conv) (x : MEntry) : Bool :=
  match x.postings.head? with
  | some p => p.number.beq m.amount.neg && p.currency == m.currency
  | none => false

/-- Step A of `merge_entries` (same-document merge) for one date group.
The Python `for e in subentries` loop removes the current element while
iterating; the cursor therefore skips the element that slides into the
removed slot.  The zipper `(before, after)` keeps `before ++ after` equal to
the current `subentries` list: on a merge the absorber `e` is dropped from
the group, the absorbed `o` is removed from the output list (`entries`), and
the next group element is skipped (moved to `before` unprocessed). -/
def stepA (st : List MEntry) (ent : List ℕ) (before : List ℕ) :
    List ℕ → Except String (List MEntry × List ℕ × List ℕ)
  | [] => .ok (st, ent, before)
  | e :: rest =>
    match find_closest st (before ++ e :: rest) e (docPred st e) with
    | none => stepA st ent (before ++ [e]) rest
    | some o =>
      match removeStrict ent o with
      | .error msg => .error msg
      | .ok ent1 =>
        let st1 := storeModify st e (fun en =>
          { en with postings := en.postings ++ (storeGet st o).postings })
        match rest with
        | [] => .ok (st1, ent1, before)
        | y :: rest2 => stepA st1 ent1 (before ++ [y]) rest2

/-- Step B of `merge_entries` (currency-conversion splice) for one date
group.  `subFull` is the group list as left by step A; it is not mutated in
step B, so the scan (`todo`) and the search both range over it, while the
store and the output list evolve. -/
def stepB (cfg : Cfg) (subFull : List ℕ) (st : List MEntry) (ent : List ℕ) :
    List ℕ → Except String (List MEntry × List ℕ)
  | [] => .ok (st, ent)
  | e :: rest =>
    match (storeGet st e).conv with
    | none => stepB cfg subFull st ent rest
    | some m =>
      match find_closest st subFull e (convPred m) with
      | none => .error "cant find matching entry"
      | some o =>
        match (storeGet st o).postings with
        | [] => .error "IndexError"
        | p0 :: ptail =>
          let p0x := { p0 with price := some (m.rate.mul cfg.rateScale, "UAH") }
          let feeList : List MPosting :=
            if cfg.hasFeePosting then [⟨cfg.feeAccount, m.fee, "UAH", none⟩] else []
          let oDocN := (storeGet st o).srcDocN
          let st1 := storeModify st e (fun en =>
            { en with postings := p0x :: (en.postings ++ feeList ++ ptail),
                      otherSrcDocN := some oDocN })
          match removeStrict ent o with
          | .error msg => .error msg
          | .ok ent1 => stepB cfg subFull st1 ent1 rest

/-- `defaultdict(list)` grouping by date, keys in first-occurrence order. -/
def addGroup (gs : List (ℤ × List ℕ)) (e : MEntry) : List (ℤ × List ℕ) :=
  match gs with
  | [] => [(e.date, [e.id])]
  | (d, l) :: rest =>
    if d = e.date then (d, l ++ [e.id]) :: rest
    else (d, l) :: addGroup rest e

/-- `entries_by_date` from `merge_entries`. -/
def groupByDate (entries : List MEntry) : List (ℤ × List ℕ) :=
  entries.foldl addGroup []

/-- Processing of one date group: groups with a single entry are skipped
(`if len(subentries) == 1: continue`); otherwise step A runs, then step B on
the group list step A left behind. -/
def processGroup (cfg : Cfg) (acc : List MEntry × List ℕ) (g : ℤ × List ℕ) :
    Except String (List MEntry × List ℕ) :=
  if g.2.length = 1 then .ok acc
  else
    match stepA acc.1 acc.2 [] g.2 with
    | .error msg => .error msg
    | .ok (st1, ent1, sub1) => stepB cfg sub1 st1 ent1 sub1

/-- `Importer.merge_entries`: group by date, run both merge steps per group,
return the surviving output list (final state of each surviving object).
Entry ids must be distinct, which holds for extracted batches (distinct
metadata line numbers). -/
def merge_entries (cfg : Cfg) (entries : List MEntry) :
    Except String (List MEntry) :=
  match (groupByDate entries).foldlM (processGroup cfg) (entries, entries.map (·.id)) with
  | .error msg => .error msg
  | .ok (st, ent) => .ok (ent.map (storeGet st))

/-- The Alfa Business importer configuration (`get_test_importer`). -/
def alfaCfg : Cfg := ⟨true, Dec.one, "Expenses:Fees:Banking:Alfabank"⟩

/-- The Ukrsib Business importer configuration (`get_test_importer`):
`D(m.group("rate")) / 100`. -/
def ukrsibCfg : Cfg := ⟨false, Dec.frac 1 100, "Expenses:Fees:Banking:Ukrsibbank"⟩

end Merger

/-! ## ibkr.py — lot / cost-basis tracker -/

namespace Ibkr

/-- One open lot: the mutable list `[quantity, trade_price, real_price]`
stored in `holdings_map[(date, symbol)]`. -/
structure Lot where
  q : Dec
  price : Dec
  real : Dec
deriving DecidableEq

/-- A closing-lot reference from the flex statement (`Types.Lot`): the
closed quantity and the total cost of the referenced opening lot; the
per-unit cost is `cost / quantity`.  The `(openDateTime.date(), symbol)`
key selection is the enclosing `holdings_map` lookup, factored out: all
functions below operate on the lot list of one key. -/
structure LotRef where
  quantity : Dec
  cost : Dec
deriving DecidableEq

/-- An opening trade row as used by `add_holding`: quantity, nominal trade
price, and total cost. -/
structure TradeOpen where
  quantity : Dec
  tradePrice : Dec
  cost : Dec
deriving DecidableEq

/-- The lot-matching test of `get_and_reduce_holding`: true per-unit price
equal after rounding to 4 decimal places, or exact quantity match together
with true price equal after rounding to 2 decimal places. -/
def lotMatches (l : Lot) (r : LotRef) : Bool :=
  (Dec.roundDec 4 l.real).beq (Dec.roundDec 4 (r.cost.div r.quantity)) ||
  (l.q.beq r.quantity &&
    (Dec.roundDec 2 l.real).beq (Dec.roundDec 2 (r.cost.div r.quantity)))

/-- The sign-compatible coverage check of `get_and_reduce_holding`:
`(quantity < 0 and quantity > lot.quantity) or
 (quantity > 0 and quantity < lot.quantity)`. -/
def lotShortfall (l : Lot) (r : LotRef) : Bool :=
  (l.q.blt Dec.zero && r.quantity.blt l.q) ||
  (Dec.zero.blt l.q && l.q.blt r.quantity)

/-- `Importer.get_and_reduce_holding` on the lot list of one
`(open date, symbol)` key: scan for the first matching lot; raise on a
shortfall; pop the lot when the quantities are equal, otherwise reduce its
quantity; return the lot's recorded price.  Raise when no lot matches. -/
def get_and_reduce_holding (r : LotRef) : List Lot → Except String (Dec × List Lot)
  | [] => .error "do not have lot"
  | l :: ls =>
    if lotMatches l r then
      if lotShortfall l r then .error "not enough holdings"
      else if l.q.beq r.quantity then .ok (l.price, ls)
      else .ok (l.price, { l with q := l.q.sub r.quantity } :: ls)
    else
      match get_and_reduce_holding r ls with
      | .error msg => .error msg
      | .ok (p, ls1) => .ok (p, l :: ls1)

/-- `Importer.add_holding` on the lot list of one `(date, symbol)` key:
merge into the first lot with *exactly* equal true per-unit price
(`holding[2] == row.cost / row.quantity`), else append a fresh lot. -/
def add_holding (row : TradeOpen) : List Lot → List Lot
  | [] => [⟨row.quantity, row.tradePrice, row.cost.div row.quantity⟩]
  | l :: ls =>
    if l.real.beq (row.cost.div row.quantity)
    then { l with q := l.q.add row.quantity } :: ls
    else l :: add_holding row ls

/-- `Importer._adjust_holding` on the lot list of one `(date, symbol)` key,
used when seeding the holdings map from the existing ledger
(`get_holdings_map`): merge into the first lot whose true price matches
after rounding to 4 decimal places (or exact quantity match and 2 decimal
places), dropping the lot when its quantity reaches zero; else append. -/
def adjust_holding (quantity price realPrice : Dec) : List Lot → List Lot
  | [] => [⟨quantity, price, realPrice⟩]
  | l :: ls =>
    if (Dec.roundDec 4 l.real).beq (Dec.roundDec 4 realPrice) ||
       (l.q.beq quantity && (Dec.roundDec 2 l.real).beq (Dec.roundDec 2 realPrice))
    then
      let q1 := l.q.add quantity
      if q1.beq Dec.zero then ls else { l with q := q1 } :: ls
    else l :: adjust_holding quantity price realPrice ls

/-- The close branch of `Importer.stock_trades` for one closing-lot
reference: `get_and_reduce_holding` wrapped in `try/except ValueError`; on
failure a warning is issued (a side effect outside the model), the cost
price degrades to `None`, and the holdings are left as they were (both
raise sites precede any mutation). -/
def stockTradeClose (r : LotRef) (h : List Lot) : Option Dec × List Lot :=
  match get_and_reduce_holding r h with
  | .ok (p, h1) => (some p, h1)
  | .error _ => (none, h)

/-- The `for clo in lots` loop of `Importer.stock_trades`: one cost-basis
posting per closing-lot reference, threading the holdings list. -/
def stockTradeCloses (rs : List LotRef) (h : List Lot) :
    List (Option Dec) × List Lot :=
  match rs with
  | [] => ([], h)
  | r :: rest =>
    let pr := stockTradeClose r h
    let rec2 := stockTradeCloses rest pr.2
    (pr.1 :: rec2.1, rec2.2)

end Ibkr

/-! ## balance-assertion dating — monobank.py `extract`, ibkr.py `Balances` -/

namespace Balances

/-- A ledger entry produced by the balance-emitting code paths: a
transaction (date only matters here) or a balance assertion.  Dates are
integer day numbers, so adding one day is adding 1. -/
inductive BEntry
  | txn (date : ℤ)
  | bal (date : ℤ) (amount : Dec)
deriving DecidableEq

/-- A monobank statement row: its transaction date and the
`"Залишок після операції"` running-balance column. -/
structure MonoRow where
  date : ℤ
  runningBalance : Dec
deriving DecidableEq

/-- The balance-emitting shape of `monobank.Importer.extract`: one
transaction per row, and for a nonempty statement a final `data.Balance`
dated `entries[-1].date + datetime.timedelta(days=1)` carrying the last
row's running balance. -/
def monobankExtract (rows : List MonoRow) : List BEntry :=
  let es := rows.map (fun r => BEntry.txn r.date)
  match rows.getLast? with
  | none => es
  | some last => es ++ [BEntry.bal (last.date + 1) last.runningBalance]

/-- A row of the IBKR cash report (`CashReport`): currency, the statement
period's end date `toDate`, and `endingCash`. -/
structure CashRow where
  currency : String
  toDate : ℤ
  endingCash : Dec
deriving DecidableEq

/-- `ibkr.Importer.Balances`: skip the `BASE_SUMMARY` row, emit a
`data.Balance` dated `row.toDate + timedelta(days=1)` for every other
row. -/
def ibkrBalances (rows : List CashRow) : List BEntry :=
  rows.filterMap (fun r =>
    if r.currency = "BASE_SUMMARY" then none
    else some (BEntry.bal (r.toDate + 1) r.endingCash))

end Balances

/-! ## Concrete instances used by the theorems below -/

namespace Examples

open Hooks Merger Ibkr

/-- A +100.00 single-posting transaction (its own account). -/
def exPlus100 : HTxn := ⟨1, 0, none, [⟨"Assets:Bank1:Card", some (Dec.ofInt 100)⟩]⟩

/-- A −99.50 single-posting transaction on a disjoint account. -/
def exMinus995 : HTxn := ⟨2, 0, none, [⟨"Assets:Bank2:Card", some (Dec.frac (-199) 2)⟩]⟩

/-- A −80.00 single-posting transaction on a disjoint account. -/
def exMinus80 : HTxn := ⟨2, 0, none, [⟨"Assets:Bank2:Card", some (Dec.ofInt (-80))⟩]⟩

/-- A −100.00 single-posting transaction on a second account. -/
def exMinus100b : HTxn := ⟨2, 0, none, [⟨"Assets:Bank2:Card", some (Dec.ofInt (-100))⟩]⟩

/-- A −100.00 single-posting transaction on a third account. -/
def exMinus100c : HTxn := ⟨3, 0, none, [⟨"Assets:Bank3:Card", some (Dec.ofInt (-100))⟩]⟩

/-- Detector state after processing `exPlus100` alone. -/
def exState1 : DetectState := detectStep ⟨[], [], []⟩ exPlus100

/-- The parsed conversion captures of the spec example:
amount 1000 USD, rate 38.5, fee 5. -/
def convEx : Conv := ⟨Dec.ofInt 1000, "USD", Dec.frac 77 2, Dec.ofInt 5⟩

/-- The primary conversion entry (purpose matches the conversion pattern). -/
def cePrim : MEntry :=
  ⟨1, 0, "D1", some convEx, none, [⟨"Assets:Cash:UAH", Dec.ofInt 38500, "UAH", none⟩]⟩

/-- The counter-entry: single posting of −1000 USD. -/
def ceCntr : MEntry :=
  ⟨2, 0, "D2", none, none, [⟨"Assets:Cash:USD", Dec.ofInt (-1000), "USD", none⟩]⟩

/-- The posting order `merge_entries` actually produces for
`[cePrim, ceCntr]` under the Alfa configuration: counter-posting priced at
the parsed rate, then the primary posting, then the fee posting. -/
def spliceActual : List MPosting :=
  [⟨"Assets:Cash:USD", Dec.ofInt (-1000), "USD", some (Dec.frac 77 2, "UAH")⟩,
   ⟨"Assets:Cash:UAH", Dec.ofInt 38500, "UAH", none⟩,
   ⟨"Expenses:Fees:Banking:Alfabank", Dec.ofInt 5, "UAH", none⟩]

/-- The posting order the claim asserts: counter-posting, then fee posting,
then the primary posting. -/
def spliceClaimed : List MPosting :=
  [⟨"Assets:Cash:USD", Dec.ofInt (-1000), "USD", some (Dec.frac 77 2, "UAH")⟩,
   ⟨"Expenses:Fees:Banking:Alfabank", Dec.ofInt 5, "UAH", none⟩,
   ⟨"Assets:Cash:UAH", Dec.ofInt 38500, "UAH", none⟩]

/-- A second entry on the conversion entry's date whose first posting is not
the negation of the parsed counter-amount. -/
def ceOther : MEntry := ⟨2, 0, "D2", none, none, [⟨"Assets:B", Dec.ofInt 7, "UAH", none⟩]⟩

/-- Document-id merge example, first row: posting A:+50 under doc id D1. -/
def docRowA : MEntry := ⟨1, 0, "D1", none, none, [⟨"Assets:A", Dec.ofInt 50, "UAH", none⟩]⟩

/-- Document-id merge example, second row: posting FeeAcct:−50 under D1. -/
def docRowB : MEntry :=
  ⟨2, 0, "D1", none, none, [⟨"Expenses:Fee", Dec.ofInt (-50), "UAH", none⟩]⟩

/-- A second row under the same doc id D1 whose purpose text additionally
matches the conversion pattern. -/
def docRowBconv : MEntry :=
  ⟨2, 0, "D1", some convEx, none, [⟨"Expenses:Fee", Dec.ofInt (-50), "UAH", none⟩]⟩

/-- True per-unit price 1.00001: one of two 4-decimal-colliding lots. -/
def colA : Dec := Dec.frac 100001 100000

/-- True per-unit price 1.00002: rounds to 4 decimals equal to `colA` but is
not exactly equal to it. -/
def colB : Dec := Dec.frac 100002 100000

/-- Opening trade of one unit at (price and per-unit cost) `colA`. -/
def openColA : TradeOpen := ⟨Dec.one, colA, colA⟩

/-- Opening trade of one unit at (price and per-unit cost) `colB`. -/
def openColB : TradeOpen := ⟨Dec.one, colB, colB⟩

/-- Closing-lot reference for the `colA` lot: quantity 1, total cost
`colA`. -/
def refColA : LotRef := ⟨Dec.one, colA⟩

/-- The holdings list a fresh run builds from the two opens. -/
def priorHoldings : List Lot := add_holding openColB (add_holding openColA [])

/-- The holdings list `get_holdings_map` reconstructs from the prior run's
ledger: the `colA` lot was fully closed, so its position and that of its
postings (cost `colA`) net to zero in the realization and are skipped; only
the `colB` open posting survives the `pos.cost.number` filter, and
`_adjust_holding` replays it. -/
def seededHoldings : List Lot := adjust_holding Dec.one colB colB []

/-- The holdings list the re-import builds: the seeded lot, then the two
opens replayed by `add_holding`. -/
def rerunHoldings : List Lot := add_holding openColB (add_holding openColA seededHoldings)

/-- The lot of the C6 depletion example: quantity 10, price 100, true price
100. -/
def lotTen : Lot := ⟨Dec.ofInt 10, Dec.ofInt 100, Dec.ofInt 100⟩

/-- Close reference of quantity 10 at total cost 1000 (per-unit 100). -/
def refTen : LotRef := ⟨Dec.ofInt 10, Dec.ofInt 1000⟩

/-- Close reference of quantity 15 at total cost 1500 (per-unit 100):
matches `lotTen` but is not covered by it. -/
def refFifteen : LotRef := ⟨Dec.ofInt 15, Dec.ofInt 1500⟩

/-- A one-row monobank statement dated day 5 with running balance 55.25
(models a last transaction on 2024-03-05). -/
def monoRow : Balances.MonoRow := ⟨5, Dec.frac 2210 40⟩

/-- A cash-report row with period end day 5 and ending cash 7. -/
def cashRow : Balances.CashRow := ⟨"USD", 5, Dec.ofInt 7⟩

end Examples

/-! ## Bridge lemmas: `Dec` operations versus rational semantics -/

namespace Dec

theorem denZ_pos (x : Dec) : 0 < x.denZ := by
  unfold denZ; positivity

theorem blt_iff (x y : Dec) : (x.blt y = true) ↔ x.toQ < y.toQ := by
  unfold blt toQ
  rw [decide_eq_true_iff, div_lt_div_iff₀ (by positivity) (by positivity)]
  constructor <;> intro h <;> exact_mod_cast h

theorem ble_iff (x y : Dec) : (x.ble y = true) ↔ x.toQ ≤ y.toQ := by
  unfold ble toQ
  rw [decide_eq_true_iff, div_le_div_iff₀ (by positivity) (by positivity)]
  constructor <;> intro h <;> exact_mod_cast h

theorem beq_iff (x y : Dec) : (x.beq y = true) ↔ x.toQ = y.toQ := by
  unfold beq toQ
  rw [beq_iff_eq, div_eq_div_iff (by positivity) (by positivity)]
  constructor <;> intro h <;> exact_mod_cast h

theorem toQ_zero : Dec.zero.toQ = 0 := by norm_num [toQ, zero]

theorem toQ_one : Dec.one.toQ = 1 := by norm_num [toQ, one]

theorem toQ_neg (x : Dec) : x.neg.toQ = -x.toQ := by
  unfold toQ neg
  push_cast
  ring

theorem toQ_eq_zero_iff (x : Dec) : x.toQ = 0 ↔ x.n = 0 := by
  unfold toQ
  rw [div_eq_zero_iff]
  constructor
  · rintro (h | h)
    · exact_mod_cast h
    · exfalso
      have hpos : ((x.dm : ℚ) + 1) ≠ 0 := by positivity
      exact hpos h
  · intro h
    left
    exact_mod_cast h

theorem mk2_zero (b : ℕ) : mk2 0 b = Dec.zero := by
  unfold mk2
  simp only [Int.natAbs_zero, Nat.gcd_zero_left]
  split_ifs with h
  · subst h; rfl
  · show (⟨0 / (b : ℤ), b / b - 1⟩ : Dec) = Dec.zero
    rw [Int.zero_ediv, Nat.div_self (Nat.pos_of_ne_zero h)]
    rfl

theorem div_of_num_zero (x y : Dec) (hx : x.n = 0) : x.div y = Dec.zero := by
  unfold div mkZ
  rw [hx, zero_mul]
  split_ifs <;> simp [mk2_zero]

end Dec

/-! ## Lemmas about the transfer detector -/

namespace Hooks

theorem same_accounts_iff (t1 t2 : List HPosting) :
    same_accounts t1 t2 = true ↔
      {a | a ∈ accountsOf t1} = {a | a ∈ accountsOf t2} := by
  unfold same_accounts
  rw [Bool.and_eq_true, List.all_eq_true, List.all_eq_true, Set.ext_iff]
  constructor
  · rintro ⟨h1, h2⟩ a
    simp only [Set.mem_setOf_eq]
    constructor
    · intro ha
      have := h1 a ha
      simpa [List.contains] using this
    · intro ha
      have := h2 a ha
      simpa [List.contains] using this
  · intro h
    constructor
    · intro a ha
      have := (h a).mp (by simpa using ha)
      simpa [List.contains] using this
    · intro a ha
      have := (h a).mpr (by simpa using ha)
      simpa [List.contains] using this

theorem are_values_oposit_iff (v1 v2 : Dec) :
    are_values_oposit v1 v2 = true ↔
      ((0 < v1.toQ ∧ v2.toQ < 0) ∨ (v1.toQ < 0 ∧ 0 < v2.toQ)) ∧
        v1.toQ ≠ 0 ∧ v2.toQ ≠ 0 ∧
        (Dec.roundDec 2 (((v1.div v2).abs.sub Dec.one).abs)).toQ ≤ 1 / 100 := by
  unfold are_values_oposit
  split_ifs with h1 h2
  · simp only [Bool.false_eq_true, false_iff]
    rw [Bool.or_eq_true, Bool.and_eq_true, Bool.and_eq_true] at h1
    rcases h1 with ⟨ha, hb⟩ | ⟨ha, hb⟩ <;>
      rw [Dec.blt_iff] at ha hb <;>
      rw [Dec.toQ_zero] at ha hb <;>
      rintro ⟨⟨hp, hq⟩ | ⟨hp, hq⟩, _⟩ <;> linarith
  · simp only [Bool.false_eq_true, false_iff]
    rw [Dec.beq_iff, Dec.toQ_zero] at h2
    rintro ⟨_, _, hz, _⟩
    exact hz h2
  · rw [Dec.ble_iff]
    have hfrac : Dec.frac 1 100 = ⟨1, 99⟩ := by decide
    have hfracQ : (Dec.frac 1 100).toQ = 1 / 100 := by
      rw [hfrac]; norm_num [Dec.toQ]
    rw [hfracQ]
    constructor
    · intro hle
      have hv2 : v2.toQ ≠ 0 := by
        intro h0
        exact h2 (by rw [Dec.beq_iff, Dec.toQ_zero]; exact h0)
      have hv1 : v1.toQ ≠ 0 := by
        intro h0
        have hn : v1.n = 0 := (Dec.toQ_eq_zero_iff v1).mp h0
        rw [Dec.div_of_num_zero v1 v2 hn] at hle
        have hone : Dec.roundDec 2 ((Dec.zero.abs.sub Dec.one).abs) = Dec.one := by decide
        rw [hone, Dec.toQ_one] at hle
        linarith
      refine ⟨?_, hv1, hv2, hle⟩
      rw [Bool.or_eq_true, Bool.and_eq_true, Bool.and_eq_true] at h1
      push_neg at h1
      obtain ⟨h1a, h1b⟩ := h1
      rcases hv1.lt_or_lt with hs1 | hs1 <;> rcases hv2.lt_or_lt with hs2 | hs2
      · exfalso
        apply h1b <;> rw [Dec.blt_iff, Dec.toQ_zero]
        · exact hs1
        · exact hs2
      · exact Or.inr ⟨hs1, hs2⟩
      · exact Or.inl ⟨hs1, hs2⟩
      · exfalso
        apply h1a <;> rw [Dec.blt_iff, Dec.toQ_zero]
        · exact hs1
        · exact hs2
    · rintro ⟨_, _, _, hle⟩
      exact hle

end Hooks

/-! ## Claim theorems -/

open Hooks Merger Ibkr Balances Examples

/-- Claim C1: within one import batch, two single-posting-sum transactions
with the same (date, hour-rounded time) key are merged by the transfer
detector exactly when their summed values have opposite sign, neither value
is zero, `round(||v1/v2| − 1|, 2) ≤ 0.01`, and their posting account sets
are not equal.  The first conjunct states the pair-acceptance test the
detector applies to each candidate; the other two check the claim's
concrete instances: +100.00 and −99.50 on disjoint accounts become one
two-posting transaction, +100.00 and −80.00 are left unmerged. -/
theorem C1_transfer_pair_criterion :
    (∀ (v1 v2 : Dec) (t1 t2 : List HPosting),
      (are_values_oposit v1 v2 && !(same_accounts t1 t2)) = true ↔
        (((0 < v1.toQ ∧ v2.toQ < 0) ∨ (v1.toQ < 0 ∧ 0 < v2.toQ)) ∧
          v1.toQ ≠ 0 ∧ v2.toQ ≠ 0 ∧
          (Dec.roundDec 2 (((v1.div v2).abs.sub Dec.one).abs)).toQ ≤ 1 / 100 ∧
          {a | a ∈ accountsOf t1} ≠ {a | a ∈ accountsOf t2})) ∧
    detect_transfers [[exPlus100, exMinus995]] =
      [[⟨1, 0, none, [⟨"Assets:Bank1:Card", some (Dec.ofInt 100)⟩,
          ⟨"Assets:Bank2:Card", some (Dec.frac (-199) 2)⟩]⟩]] ∧
    detect_transfers [[exPlus100, exMinus80]] = [[exPlus100, exMinus80]] := by
  refine ⟨?_, by decide, by decide⟩
  intro v1 v2 t1 t2
  rw [Bool.and_eq_true, Bool.not_eq_true', are_values_oposit_iff]
  have hsa : (same_accounts t1 t2 = false) ↔
      ¬({a | a ∈ accountsOf t1} = {a | a ∈ accountsOf t2}) := by
    rw [← same_accounts_iff]
    simp
  rw [hsa]
  tauto

/-- Claim C2 counterexample: with three single-posting transactions
A(+100, Bank1), B(−100, Bank2), C(−100, Bank3) sharing one key, the
detector first merges B into A and then merges C into the already-merged A
as well, because A stays in the candidate pool; the output transaction
carries all three postings, so a transaction that has absorbed a merge IS
merged again with a third transaction, contradicting the claim. -/
theorem C2_counterexample :
    detect_transfers [[exPlus100, exMinus100b, exMinus100c]] =
      [[⟨1, 0, none, [⟨"Assets:Bank1:Card", some (Dec.ofInt 100)⟩,
          ⟨"Assets:Bank2:Card", some (Dec.ofInt (-100))⟩,
          ⟨"Assets:Bank3:Card", some (Dec.ofInt (-100))⟩]⟩]] := by
  decide

/-- Claim C2, amended: when a pair matches, the later-encountered
transaction's postings are appended onto the earlier one, the later one is
removed from its file's entry list, and it is never added to the candidate
pool (so it is never merged again); the first matching candidate in
insertion order wins.  The earlier transaction, however, remains in the
candidate pool under its originally stored value (the state's `cands` field
is unchanged by a merge) and can absorb further transactions.  The first
conjunct characterises a matching step, the second a non-matching step, the
third first-candidate-wins. -/
theorem C2_amended_merge_step :
    (∀ (s : DetectState) (e : HTxn) (oid : ℕ),
      findMatch s.post e (transferValue e) (alistGet (transferKey e) s.cands) = some oid →
      detectStep s e =
        { s with post := postApp oid e.postings s.post,
                 removed := s.removed ++ [e.id] }) ∧
    (∀ (s : DetectState) (e : HTxn),
      findMatch s.post e (transferValue e) (alistGet (transferKey e) s.cands) = none →
      detectStep s e =
        { s with cands := alistApp (transferKey e) (transferValue e, e.id) s.cands,
                 post := s.post ++ [(e.id, e.postings)] }) ∧
    (∀ (post : List (ℕ × List HPosting)) (e : HTxn) (v ov : Dec) (oid : ℕ)
        (rest : List (Dec × ℕ)),
      (are_values_oposit v ov && !(same_accounts (postGet oid post) e.postings)) = true →
      findMatch post e v ((ov, oid) :: rest) = some oid) := by
  refine ⟨?_, ?_, ?_⟩
  · intro s e oid h
    simp only [detectStep, h]
  · intro s e h
    simp only [detectStep, h]
  · intro post e v ov oid rest h
    simp only [findMatch, h, if_true]

/-- Witness for the amended C2: the matching step applied to the concrete
state holding candidate +100 and the arriving −100 transaction. -/
theorem C2_amended_merge_step_witness :
    detectStep exState1 exMinus100b =
      { exState1 with post := postApp 1 exMinus100b.postings exState1.post,
                      removed := exState1.removed ++ [2] } ∧
    findMatch exState1.post exMinus100b (transferValue exMinus100b)
        ((Dec.ofInt 100, 1) :: []) = some 1 :=
  ⟨C2_amended_merge_step.1 exState1 exMinus100b 1 (by decide),
   C2_amended_merge_step.2.2 exState1.post exMinus100b (transferValue exMinus100b)
     (Dec.ofInt 100) 1 [] (by decide)⟩

/-- Claim C10: `are_values_oposit` is total (the `v2 == 0` guard precedes
the division) and returns `False` whenever `v1 = 0` or `v2 = 0`; in the
`v1 = 0`, `v2 ≠ 0` case the quantity rounded to two decimals is exactly 1,
which exceeds the 1% tolerance. -/
theorem C10_zero_values_never_opposite :
    (∀ v1 v2 : Dec, v1.toQ = 0 ∨ v2.toQ = 0 → are_values_oposit v1 v2 = false) ∧
    (∀ v1 v2 : Dec, v1.toQ = 0 → v2.toQ ≠ 0 →
      (Dec.roundDec 2 (((v1.div v2).abs.sub Dec.one).abs)).toQ = 1 ∧
        ¬((1 : ℚ) ≤ 1 / 100)) := by
  constructor
  · intro v1 v2 h
    rcases h with h | h
    · unfold are_values_oposit
      split_ifs with h1 h2
      · rfl
      · rfl
      · have hn : v1.n = 0 := (Dec.toQ_eq_zero_iff v1).mp h
        rw [Dec.div_of_num_zero v1 v2 hn]
        decide
    · unfold are_values_oposit
      split_ifs with h1 h2
      · rfl
      · rfl
      · exfalso
        exact h2 (by rw [Dec.beq_iff, Dec.toQ_zero]; exact h)
  · intro v1 v2 h _
    have hn : v1.n = 0 := (Dec.toQ_eq_zero_iff v1).mp h
    rw [Dec.div_of_num_zero v1 v2 hn]
    constructor
    · have hone : Dec.roundDec 2 ((Dec.zero.abs.sub Dec.one).abs) = Dec.one := by decide
      rw [hone, Dec.toQ_one]
    · norm_num

/-! ## Lemmas about the same-statement merger -/

namespace Merger

theorem storeGet_cons_self (st : List MEntry) (e : MEntry) :
    storeGet (e :: st) e.id = e := by
  simp [storeGet, List.find?]

theorem storeGet_cons_ne (st : List MEntry) (e : MEntry) (i : ℕ) (h : e.id ≠ i) :
    storeGet (e :: st) i = storeGet st i := by
  have hbeq : (e.id == i) = false := beq_eq_false_iff_ne.mpr h
  simp [storeGet, List.find?, hbeq]

theorem storeGet_of_mem (st : List MEntry) (x : MEntry) (hx : x ∈ st)
    (hids : st.Pairwise (fun a b => a.id ≠ b.id)) : storeGet st x.id = x := by
  induction st with
  | nil => cases hx
  | cons a rest ih =>
    rcases List.mem_cons.mp hx with rfl | hmem
    · exact storeGet_cons_self rest x
    · have hne : a.id ≠ x.id := (List.pairwise_cons.mp hids).1 x hmem
      rw [storeGet_cons_ne rest a x.id hne]
      exact ih hmem (List.pairwise_cons.mp hids).2

theorem find_closest_cons_self (st : List MEntry) (rest : List ℕ) (i : ℕ)
    (pred : MEntry → Bool) :
    find_closest st (i :: rest) i pred = find_closest st rest i pred := by
  simp [find_closest]

theorem find_closest_cons_yes (st : List MEntry) (rest : List ℕ) (x selfId : ℕ)
    (pred : MEntry → Bool) (h1 : x ≠ selfId) (h2 : pred (storeGet st x) = true) :
    find_closest st (x :: rest) selfId pred = some x := by
  simp [find_closest, h1, h2]

theorem find_closest_cons_predfalse (st : List MEntry) (rest : List ℕ) (x selfId : ℕ)
    (pred : MEntry → Bool) (h2 : pred (storeGet st x) = false) :
    find_closest st (x :: rest) selfId pred = find_closest st rest selfId pred := by
  simp [find_closest, h2]

theorem find_closest_none (st : List MEntry) (sub : List ℕ) (selfId : ℕ)
    (pred : MEntry → Bool)
    (h : ∀ x ∈ sub, x ≠ selfId → pred (storeGet st x) = false) :
    find_closest st sub selfId pred = none := by
  induction sub with
  | nil => rfl
  | cons x rest ih =>
    by_cases hx : x = selfId
    · subst hx
      rw [find_closest_cons_self]
      exact ih (fun y hy => h y (List.mem_cons_of_mem _ hy))
    · rw [find_closest_cons_predfalse st rest x selfId pred
        (h x (List.mem_cons_self _ _) hx)]
      exact ih (fun y hy => h y (List.mem_cons_of_mem _ hy))

theorem stepA_no_same_doc (st : List MEntry) (ent : List ℕ) :
    ∀ (after before : List ℕ),
      (∀ x ∈ before ++ after, ∀ y ∈ before ++ after, x ≠ y →
        (storeGet st x).srcDocN ≠ (storeGet st y).srcDocN) →
      stepA st ent before after = .ok (st, ent, before ++ after) := by
  intro after
  induction after with
  | nil =>
    intro before _
    rw [List.append_nil]
    rfl
  | cons e rest ih =>
    intro before h
    have hnone : find_closest st (before ++ e :: rest) e (docPred st e) = none := by
      apply find_closest_none
      intro x hx hne
      have hmem_e : e ∈ before ++ e :: rest :=
        List.mem_append.mpr (Or.inr (List.mem_cons_self _ _))
      have hd := h x hx e hmem_e hne
      unfold docPred
      exact beq_eq_false_iff_ne.mpr hd
    have hr : (before ++ [e]) ++ rest = before ++ e :: rest := by
      rw [List.append_assoc]
      rfl
    simp only [stepA, hnone]
    rw [ih (before ++ [e]) (by rw [hr]; exact h), hr]

theorem stepB_noop (cfg : Cfg) (subFull : List ℕ) (st : List MEntry) (ent : List ℕ) :
    ∀ todo : List ℕ, (∀ x ∈ todo, (storeGet st x).conv = none) →
      stepB cfg subFull st ent todo = .ok (st, ent) := by
  intro todo
  induction todo with
  | nil => intro _; rfl
  | cons x rest ih =>
    intro h
    simp only [stepB, h x (List.mem_cons_self _ _)]
    exact ih (fun y hy => h y (List.mem_cons_of_mem _ hy))

theorem addGroup_fold (d : ℤ) :
    ∀ (es : List MEntry) (acc : List ℕ), (∀ x ∈ es, x.date = d) →
      es.foldl addGroup [(d, acc)] = [(d, acc ++ es.map (·.id))] := by
  intro es
  induction es with
  | nil => intro acc _; simp
  | cons x rest ih =>
    intro acc h
    have hx : x.date = d := h x (List.mem_cons_self _ _)
    simp only [List.foldl, addGroup, hx, eq_self_iff_true, if_true, List.map_cons]
    rw [ih (acc ++ [x.id]) (fun y hy => h y (List.mem_cons_of_mem _ hy))]
    simp

theorem groupByDate_const (d : ℤ) (es : List MEntry) (hne : es ≠ [])
    (h : ∀ x ∈ es, x.date = d) :
    groupByDate es = [(d, es.map (·.id))] := by
  cases es with
  | nil => exact absurd rfl hne
  | cons x rest =>
    have hx : x.date = d := h x (List.mem_cons_self _ _)
    unfold groupByDate
    simp only [List.foldl, addGroup]
    rw [hx]
    rw [addGroup_fold d rest [x.id] (fun y hy => h y (List.mem_cons_of_mem _ hy))]
    simp

theorem stepB_error_scan (cfg : Cfg) (subFull : List ℕ) (st : List MEntry)
    (ent : List ℕ) (m : Conv) :
    ∀ (pre : List ℕ) (e : ℕ) (rest : List ℕ),
      (∀ x ∈ pre, (storeGet st x).conv = none) →
      (storeGet st e).conv = some m →
      find_closest st subFull e (convPred m) = none →
      stepB cfg subFull st ent (pre ++ e :: rest) = .error "cant find matching entry" := by
  intro pre
  induction pre with
  | nil =>
    intro e rest _ hconv hfc
    simp only [List.nil_append, stepB, hconv, hfc]
  | cons p pre1 ih =>
    intro e rest h hconv hfc
    simp only [List.cons_append, stepB, h p (List.mem_cons_self _ _)]
    exact ih e rest (fun y hy => h y (List.mem_cons_of_mem _ hy)) hconv hfc

theorem storeGet_pair_fst (e c : MEntry) : storeGet [e, c] e.id = e :=
  storeGet_cons_self [c] e

theorem storeGet_pair_snd (e c : MEntry) (hid : e.id ≠ c.id) :
    storeGet [e, c] c.id = c := by
  rw [storeGet_cons_ne [c] e c.id hid]
  exact storeGet_cons_self [] c

theorem stepA_pair_same_doc (ent : List ℕ) (e c : MEntry) (hid : e.id ≠ c.id)
    (hcin : c.id ∈ ent) (hdoc : e.srcDocN = c.srcDocN) :
    stepA [e, c] ent [] [e.id, c.id] =
      .ok ([{ e with postings := e.postings ++ c.postings }, c],
           ent.erase c.id, [c.id]) := by
  have hfc : find_closest [e, c] [e.id, c.id] e.id (docPred [e, c] e.id) =
      some c.id := by
    rw [find_closest_cons_self]
    apply find_closest_cons_yes
    · exact fun hh => hid hh.symm
    · unfold docPred
      rw [storeGet_pair_fst, storeGet_pair_snd e c hid, hdoc]
      exact beq_self_eq_true _
  have hrm : removeStrict ent c.id = .ok (ent.erase c.id) := by
    unfold removeStrict
    rw [if_pos (List.elem_eq_true_of_mem hcin)]
  have hmod : storeModify [e, c] e.id (fun en =>
      { en with postings := en.postings ++ (storeGet [e, c] c.id).postings }) =
      [{ e with postings := e.postings ++ c.postings }, c] := by
    unfold storeModify
    rw [storeGet_pair_snd e c hid]
    simp only [List.map_cons, List.map_nil, eq_self_iff_true, if_true,
      if_neg (fun hh : c.id = e.id => hid hh.symm)]
  simp only [stepA, hfc, hrm, hmod, List.nil_append]

theorem storeModify_pair_fst (e c : MEntry) (hid : e.id ≠ c.id)
    (f : MEntry → MEntry) : storeModify [e, c] e.id f = [f e, c] := by
  unfold storeModify
  simp only [List.map_cons, List.map_nil, eq_self_iff_true, if_true,
    if_neg (fun hh : c.id = e.id => hid hh.symm)]

theorem stepB_pair_conv (cfg : Cfg) (e c : MEntry) (m : Conv) (p0 : MPosting)
    (ptail : List MPosting) (hid : e.id ≠ c.id)
    (hconv : e.conv = some m) (hcconv : c.conv = none)
    (hcpost : c.postings = p0 :: ptail)
    (hnum : p0.number.beq m.amount.neg = true) (hcur : p0.currency = m.currency) :
    stepB cfg [e.id, c.id] [e, c] [e.id, c.id] [e.id, c.id] =
      .ok ([{ e with
        postings := { p0 with price := some (m.rate.mul cfg.rateScale, "UAH") } ::
          (e.postings ++
            (if cfg.hasFeePosting then [⟨cfg.feeAccount, m.fee, "UAH", none⟩] else []) ++
            ptail),
        otherSrcDocN := some c.srcDocN }, c], [e.id]) := by
  have hfc : find_closest [e, c] [e.id, c.id] e.id (convPred m) = some c.id := by
    rw [find_closest_cons_self]
    apply find_closest_cons_yes
    · exact fun hh => hid hh.symm
    · unfold convPred
      rw [storeGet_pair_snd e c hid, hcpost]
      show (p0.number.beq m.amount.neg && p0.currency == m.currency) = true
      rw [hnum, hcur, beq_self_eq_true]
      rfl
  have hrm : removeStrict [e.id, c.id] c.id = .ok [e.id] := by
    unfold removeStrict
    rw [if_pos (List.elem_eq_true_of_mem
      (List.mem_cons_of_mem _ (List.mem_cons_self _ _)))]
    have h1 : (e.id == c.id) = false := beq_eq_false_iff_ne.mpr hid
    simp [List.erase, h1]
  have hget2 : ∀ x : MEntry, x.id = e.id → storeGet [x, c] c.id = c := by
    intro x hx
    rw [storeGet_cons_ne [c] x c.id (by rw [hx]; exact hid)]
    exact storeGet_cons_self [] c
  simp only [stepB, storeGet_pair_fst, hconv, hfc, storeGet_pair_snd e c hid, hcpost,
    hrm, storeModify_pair_fst e c hid, hget2, hcconv]

end Merger

/-- Witness for C10 at `v1 = 0, v2 = 5` and `v1 = 5, v2 = 0`. -/
theorem C10_zero_values_never_opposite_witness :
    are_values_oposit Dec.zero (Dec.ofInt 5) = false ∧
    are_values_oposit (Dec.ofInt 5) Dec.zero = false ∧
    (Dec.roundDec 2 (((Dec.zero.div (Dec.ofInt 5)).abs.sub Dec.one).abs)).toQ = 1 :=
  ⟨C10_zero_values_never_opposite.1 Dec.zero (Dec.ofInt 5)
     (Or.inl (by norm_num [Dec.toQ, Dec.zero])),
   C10_zero_values_never_opposite.1 (Dec.ofInt 5) Dec.zero
     (Or.inr (by norm_num [Dec.toQ, Dec.zero])),
   (C10_zero_values_never_opposite.2 Dec.zero (Dec.ofInt 5)
     (by norm_num [Dec.toQ, Dec.zero]) (by norm_num [Dec.toQ, Dec.ofInt])).1⟩

/-- Claim C3 counterexample: for a conversion entry parsing to
`{amount: 1000 USD, rate: 38.5, fee: 5}` and a counter-entry with posting
−1000 USD, the Alfa merger produces postings ordered
[counter-posting(priced), primary-posting, fee-posting] — the fee posting
is *appended after* the original entry's postings, not inserted before
them as the claim asserts. -/
theorem C3_counterexample :
    merge_entries alfaCfg [cePrim, ceCntr] =
      .ok [⟨1, 0, "D1", some convEx, some "D2", spliceActual⟩] ∧
    spliceActual ≠ spliceClaimed := by
  exact ⟨by decide, by decide⟩

/-- Claim C3, amended: in a date group consisting of a conversion entry `e`
(purpose matching the provider pattern with captures `m`) and a
counter-entry `c` whose first posting is the exact negation of the parsed
counter-amount/currency, the merged transaction's postings are ordered: the
counter-entry's first posting annotated with the parsed rate (scaled by the
importer's rate factor — 1 for Alfa, 1/100 for Ukrsib) as its price, then
the original entry's postings, then — only when the importer appends one
(Alfa does, Ukrsib does not) — a fee posting for the parsed fee amount to
the fee account, then the counter-entry's remaining postings; the
counter-entry's document id is recorded as the other-source-document
metadata and the counter-entry is removed from the output. -/
theorem C3_amended_conversion_splice :
    ∀ (cfg : Cfg) (e c : MEntry) (m : Conv) (p0 : MPosting) (ptail : List MPosting),
      e.id ≠ c.id → c.date = e.date → e.srcDocN ≠ c.srcDocN →
      e.conv = some m → c.conv = none →
      c.postings = p0 :: ptail →
      p0.number.toQ = -m.amount.toQ → p0.currency = m.currency →
      merge_entries cfg [e, c] =
        .ok [{ e with
          postings := { p0 with price := some (m.rate.mul cfg.rateScale, "UAH") } ::
            (e.postings ++
              (if cfg.hasFeePosting then [⟨cfg.feeAccount, m.fee, "UAH", none⟩] else []) ++
              ptail),
          otherSrcDocN := some c.srcDocN }] := by
  intro cfg e c m p0 ptail hid hdate hdoc hconv hcconv hcpost hnumQ hcur
  have hnum : p0.number.beq m.amount.neg = true := by
    rw [Dec.beq_iff, Dec.toQ_neg]
    exact hnumQ
  have hgroup : groupByDate [e, c] = [(e.date, [e.id, c.id])] := by
    rw [groupByDate_const e.date [e, c] (by simp)
      (by intro x hx
          rcases List.mem_cons.mp hx with rfl | hx2
          · rfl
          · rcases List.mem_cons.mp hx2 with rfl | hx3
            · exact hdate
            · cases hx3)]
    rfl
  have hstepA : stepA [e, c] [e.id, c.id] [] [e.id, c.id] =
      .ok ([e, c], [e.id, c.id], [] ++ [e.id, c.id]) := by
    apply stepA_no_same_doc
    intro x hx y hy hxy
    simp only [List.nil_append, List.mem_cons, List.not_mem_nil, or_false] at hx hy
    rcases hx with rfl | rfl <;> rcases hy with rfl | rfl
    · exact absurd rfl hxy
    · rw [storeGet_pair_fst, storeGet_pair_snd e c hid]
      exact hdoc
    · rw [storeGet_pair_fst, storeGet_pair_snd e c hid]
      exact fun hh => hdoc hh.symm
    · exact absurd rfl hxy
  have hproc : processGroup cfg ([e, c], [e.id, c.id]) (e.date, [e.id, c.id]) =
      .ok ([{ e with
        postings := { p0 with price := some (m.rate.mul cfg.rateScale, "UAH") } ::
          (e.postings ++
            (if cfg.hasFeePosting then [⟨cfg.feeAccount, m.fee, "UAH", none⟩] else []) ++
            ptail),
        otherSrcDocN := some c.srcDocN }, c], [e.id]) := by
    unfold processGroup
    rw [if_neg (by simp)]
    rw [hstepA]
    simp only [List.nil_append]
    exact stepB_pair_conv cfg e c m p0 ptail hid hconv hcconv hcpost hnum hcur
  unfold merge_entries
  rw [hgroup]
  simp only [List.map_cons, List.map_nil, List.foldlM, hproc]
  show Except.ok ([e.id].map (storeGet [{ e with
      postings := { p0 with price := some (m.rate.mul cfg.rateScale, "UAH") } ::
        (e.postings ++
          (if cfg.hasFeePosting then [⟨cfg.feeAccount, m.fee, "UAH", none⟩] else []) ++
          ptail),
      otherSrcDocN := some c.srcDocN }, c])) = _
  rw [List.map_cons, List.map_nil]
  rw [show storeGet [{ e with
      postings := { p0 with price := some (m.rate.mul cfg.rateScale, "UAH") } ::
        (e.postings ++
          (if cfg.hasFeePosting then [⟨cfg.feeAccount, m.fee, "UAH", none⟩] else []) ++
          ptail),
      otherSrcDocN := some c.srcDocN }, c] e.id = { e with
      postings := { p0 with price := some (m.rate.mul cfg.rateScale, "UAH") } ::
        (e.postings ++
          (if cfg.hasFeePosting then [⟨cfg.feeAccount, m.fee, "UAH", none⟩] else []) ++
          ptail),
      otherSrcDocN := some c.srcDocN } from storeGet_cons_self _ _]

/-- Witness for the amended C3: the concrete conversion pair under the Alfa
configuration. -/
theorem C3_amended_conversion_splice_witness :
    merge_entries alfaCfg [cePrim, ceCntr] =
      .ok [{ cePrim with
        postings := { (⟨"Assets:Cash:USD", Dec.ofInt (-1000), "USD", none⟩ : MPosting) with
            price := some (convEx.rate.mul alfaCfg.rateScale, "UAH") } ::
          (cePrim.postings ++
            (if alfaCfg.hasFeePosting then
              [⟨alfaCfg.feeAccount, convEx.fee, "UAH", none⟩] else []) ++
            ([] : List MPosting)),
        otherSrcDocN := some ceCntr.srcDocN }] :=
  C3_amended_conversion_splice alfaCfg cePrim ceCntr convEx
    ⟨"Assets:Cash:USD", Dec.ofInt (-1000), "USD", none⟩ []
    (by decide) rfl (by decide) rfl rfl rfl
    (show (Dec.ofInt (-1000)).toQ = -(Dec.ofInt 1000).toQ by
      norm_num [Dec.toQ, Dec.ofInt]) rfl

/-- Claim C4 counterexample: a conversion entry that is alone in its date
group is silently kept — the merger skips singleton groups
(`if len(subentries) == 1: continue`) before the conversion pattern is even
examined, so no error is raised although the pattern matches and no
counter-entry exists. -/
theorem C4_counterexample :
    merge_entries alfaCfg [cePrim] = .ok [cePrim] ∧ cePrim.conv = some convEx :=
  ⟨by decide, rfl⟩

/-- Claim C4, amended: for a date group with at least two entries, pairwise
distinct document numbers (so the document-id step does not consume the
conversion entry first), and exactly one entry whose purpose matches the
conversion pattern, if no other entry of the group has a first posting
equal to the negation of the parsed counter-amount/currency then
`merge_entries` raises an error, aborting extraction of the file, rather
than dropping or keeping the entry.  (A conversion entry that is alone in
its date group, or one that the document-id step absorbs first, is instead
kept without error.) -/
theorem C4_amended_missing_counterleg :
    ∀ (cfg : Cfg) (d : ℤ) (es : List MEntry) (e : MEntry) (m : Conv),
      2 ≤ es.length →
      (∀ x ∈ es, x.date = d) →
      es.Pairwise (fun a b => a.id ≠ b.id) →
      es.Pairwise (fun a b => a.srcDocN ≠ b.srcDocN) →
      e ∈ es → e.conv = some m →
      (∀ x ∈ es, x ≠ e → x.conv = none) →
      (∀ x ∈ es, x ≠ e → ∀ p, x.postings.head? = some p →
        ¬(p.number.toQ = -m.amount.toQ ∧ p.currency = m.currency)) →
      merge_entries cfg es = .error "cant find matching entry" := by
  intro cfg d es e m hlen hdate hids hdocs he hconv hothers hnocounter
  have hne : es ≠ [] := by
    intro h
    rw [h] at hlen
    simp at hlen
  have hget : ∀ x ∈ es, storeGet es x.id = x := fun x hx => storeGet_of_mem es x hx hids
  have hmemid : ∀ i ∈ es.map (·.id), ∃ x ∈ es, x.id = i := by
    intro i hi
    rcases List.mem_map.mp hi with ⟨x, hx, rfl⟩
    exact ⟨x, hx, rfl⟩
  have hstepA : stepA es (es.map (·.id)) [] (es.map (·.id)) =
      .ok (es, es.map (·.id), [] ++ es.map (·.id)) := by
    apply stepA_no_same_doc
    intro x hx y hy hxy
    simp only [List.nil_append] at hx hy
    rcases hmemid x hx with ⟨a, ha, rfl⟩
    rcases hmemid y hy with ⟨b, hb, rfl⟩
    rw [hget a ha, hget b hb]
    have hab : a ≠ b := fun hh => hxy (by rw [hh])
    exact List.Pairwise.forall (fun p q hpq => Ne.symm hpq) hdocs ha hb hab
  obtain ⟨pre, post, rfl⟩ := List.append_of_mem he
  have hpre_sub : ∀ x ∈ pre, x ∈ pre ++ e :: post := fun x hx =>
    List.mem_append.mpr (Or.inl hx)
  have he_mem : e ∈ pre ++ e :: post := List.mem_append.mpr (Or.inr (List.mem_cons_self _ _))
  obtain ⟨hids_pre, hids_mid, hids_cross⟩ := List.pairwise_append.mp hids
  have he_notin_pre : ∀ x ∈ pre, x.id ≠ e.id := fun x hx =>
    hids_cross x hx e (List.mem_cons_self _ _)
  have hne_of_id : ∀ x ∈ pre ++ e :: post, x.id ≠ e.id → x ≠ e := by
    intro x _ hxid hxe
    exact hxid (by rw [hxe])
  have hfc : find_closest (pre ++ e :: post) ((pre ++ e :: post).map (·.id)) e.id
      (convPred m) = none := by
    apply find_closest_none
    intro i hi hine
    rcases hmemid i hi with ⟨a, ha, rfl⟩
    rw [hget a ha]
    have hae : a ≠ e := hne_of_id a ha hine
    unfold convPred
    cases hhead : a.postings.head? with
    | none => rfl
    | some p =>
      have hnc := hnocounter a ha hae p hhead
      by_cases hc : p.currency = m.currency
      · have hnumf : p.number.beq m.amount.neg = false := by
          rw [← Bool.not_eq_true]
          intro hb
          rw [Dec.beq_iff, Dec.toQ_neg] at hb
          exact hnc ⟨hb, hc⟩
        simp [hnumf]
      · have hcurf : (p.currency == m.currency) = false := beq_eq_false_iff_ne.mpr hc
        simp [hcurf]
  have hconv_pre : ∀ i ∈ pre.map (·.id), (storeGet (pre ++ e :: post) i).conv = none := by
    intro i hi
    rcases List.mem_map.mp hi with ⟨a, ha, rfl⟩
    rw [hget a (hpre_sub a ha)]
    exact hothers a (hpre_sub a ha) (hne_of_id a (hpre_sub a ha) (he_notin_pre a ha))
  have hgete : storeGet (pre ++ e :: post) e.id = e := hget e he_mem
  have hsplit : (pre ++ e :: post).map (·.id) =
      pre.map (·.id) ++ e.id :: post.map (·.id) := by simp
  have hstepB : stepB cfg ((pre ++ e :: post).map (·.id)) (pre ++ e :: post)
      ((pre ++ e :: post).map (·.id)) (pre.map (·.id) ++ e.id :: post.map (·.id)) =
      .error "cant find matching entry" :=
    stepB_error_scan cfg _ _ _ m (pre.map (·.id)) e.id (post.map (·.id))
      hconv_pre (by rw [hgete]; exact hconv) hfc
  have hproc : processGroup cfg (pre ++ e :: post, (pre ++ e :: post).map (·.id))
      (d, (pre ++ e :: post).map (·.id)) = .error "cant find matching entry" := by
    unfold processGroup
    rw [if_neg (by simp only [List.length_map]; omega)]
    rw [hstepA]
    simp only [List.nil_append]
    rw [show stepB cfg ((pre ++ e :: post).map (·.id)) (pre ++ e :: post)
        ((pre ++ e :: post).map (·.id)) ((pre ++ e :: post).map (·.id)) =
      stepB cfg ((pre ++ e :: post).map (·.id)) (pre ++ e :: post)
        ((pre ++ e :: post).map (·.id)) (pre.map (·.id) ++ e.id :: post.map (·.id)) from by
        rw [← hsplit]]
    exact hstepB
  unfold merge_entries
  rw [groupByDate_const d _ hne hdate]
  simp only [List.foldlM, hproc]
  rfl

/-- Witness for the amended C4: the conversion entry together with one
unrelated entry on the same date; the merger aborts with an error. -/
theorem C4_amended_missing_counterleg_witness :
    merge_entries alfaCfg [cePrim, ceOther] = .error "cant find matching entry" :=
  C4_amended_missing_counterleg alfaCfg 0 [cePrim, ceOther] cePrim convEx
    (by decide) (by decide) (by decide) (by decide) (by decide) rfl
    (by
      intro x hx hne
      rcases List.mem_cons.mp hx with rfl | hx2
      · exact absurd rfl hne
      · rcases List.mem_cons.mp hx2 with rfl | hx3
        · rfl
        · cases hx3)
    (by
      intro x hx hne p hp
      rcases List.mem_cons.mp hx with rfl | hx2
      · exact absurd rfl hne
      · rcases List.mem_cons.mp hx2 with rfl | hx3
        · cases hp
          rintro ⟨_, hcur⟩
          exact absurd hcur (by decide)
        · cases hx3)

/-- Claim C5 counterexample: a date group with exactly two entries sharing
document id D1, where the second entry's purpose additionally matches the
conversion pattern: the document-id step merges them, but the conversion
step still scans the absorbed row, finds no counter-entry for it, and
raises — the output is an error, not the claimed two-posting transaction. -/
theorem C5_counterexample :
    merge_entries alfaCfg [docRowA, docRowBconv] = .error "cant find matching entry" ∧
    docRowA.srcDocN = docRowBconv.srcDocN := by
  exact ⟨by decide, rfl⟩

/-- Claim C5, amended: for a date group of exactly two entries sharing the
same source document number, the merger produces a single transaction whose
posting list is the first entry's postings followed by the second entry's
postings, and the other entry is removed from the output — provided the
second entry's purpose does not match the currency-conversion pattern
(otherwise the conversion step still examines the absorbed row and raises
because its counter-entry cannot be found). -/
theorem C5_amended_document_id_merge :
    ∀ (cfg : Cfg) (e c : MEntry),
      e.id ≠ c.id → c.date = e.date → e.srcDocN = c.srcDocN → c.conv = none →
      merge_entries cfg [e, c] = .ok [{ e with postings := e.postings ++ c.postings }] := by
  intro cfg e c hid hdate hdoc hcconv
  have hgroup : groupByDate [e, c] = [(e.date, [e.id, c.id])] := by
    rw [groupByDate_const e.date [e, c] (by simp)
      (by intro x hx
          rcases List.mem_cons.mp hx with rfl | hx2
          · rfl
          · rcases List.mem_cons.mp hx2 with rfl | hx3
            · exact hdate
            · cases hx3)]
    rfl
  have hstepA := stepA_pair_same_doc [e.id, c.id] e c hid
    (List.mem_cons_of_mem _ (List.mem_cons_self _ _)) hdoc
  have herase : ([e.id, c.id] : List ℕ).erase c.id = [e.id] := by
    have h1 : (e.id == c.id) = false := beq_eq_false_iff_ne.mpr hid
    simp [List.erase, h1]
  rw [herase] at hstepA
  have hm : ({ e with postings := e.postings ++ c.postings } : MEntry).id = e.id := rfl
  have hstepB : stepB cfg [c.id] [{ e with postings := e.postings ++ c.postings }, c]
      [e.id] [c.id] =
      .ok ([{ e with postings := e.postings ++ c.postings }, c], [e.id]) := by
    apply stepB_noop
    intro x hx
    rcases List.mem_cons.mp hx with rfl | hx2
    · rw [storeGet_cons_ne _ _ _ (by rw [hm]; exact hid)]
      rw [storeGet_cons_self [] c]
      exact hcconv
    · cases hx2
  have hproc : processGroup cfg ([e, c], [e.id, c.id]) (e.date, [e.id, c.id]) =
      .ok ([{ e with postings := e.postings ++ c.postings }, c], [e.id]) := by
    unfold processGroup
    rw [if_neg (by simp)]
    rw [hstepA]
    exact hstepB
  unfold merge_entries
  rw [hgroup]
  simp only [List.map_cons, List.map_nil, List.foldlM, hproc]
  show Except.ok ([e.id].map (storeGet [{ e with postings := e.postings ++ c.postings }, c])) = _
  rw [List.map_cons, List.map_nil]
  rw [show storeGet [{ e with postings := e.postings ++ c.postings }, c] e.id =
    { e with postings := e.postings ++ c.postings } from storeGet_cons_self _ _]

/-- Witness for the amended C5: rows A:+50 and FeeAcct:−50 under document
id D1 merge into one two-posting transaction, in document order. -/
theorem C5_amended_document_id_merge_witness :
    merge_entries alfaCfg [docRowA, docRowB] =
      .ok [{ docRowA with postings := docRowA.postings ++ docRowB.postings }] :=
  C5_amended_document_id_merge alfaCfg docRowA docRowB (by decide) rfl rfl rfl

/-- Claim C6: on a close event, the lot tracker selects the *first* open
lot under the (open date, symbol) key whose true per-unit price equals the
reference's cost-per-unit rounded to 4 decimal places, or whose quantity
equals the reference's exactly with true prices equal at 2 decimal places
(first conjunct: that condition, stated semantically); the matched lot's
quantity is reduced by the closed quantity and the lot is removed exactly
when the quantities are equal (second conjunct, for a coverage-adequate
first match); closing quantity 10 against an open lot of quantity 10 at the
same true price leaves zero open lots (third conjunct). -/
theorem C6_lot_matching_and_reduction :
    (∀ (l : Lot) (r : LotRef), lotMatches l r = true ↔
      ((Dec.roundDec 4 l.real).toQ = (Dec.roundDec 4 (r.cost.div r.quantity)).toQ ∨
        (l.q.toQ = r.quantity.toQ ∧
          (Dec.roundDec 2 l.real).toQ = (Dec.roundDec 2 (r.cost.div r.quantity)).toQ))) ∧
    (∀ (r : LotRef) (pre : List Lot) (l : Lot) (post : List Lot),
      (∀ x ∈ pre, lotMatches x r = false) →
      lotMatches l r = true →
      lotShortfall l r = false →
      get_and_reduce_holding r (pre ++ l :: post) =
        .ok (l.price, pre ++ (if l.q.toQ = r.quantity.toQ then post
            else { l with q := l.q.sub r.quantity } :: post))) ∧
    get_and_reduce_holding refTen [lotTen] = .ok (Dec.ofInt 100, []) := by
  refine ⟨?_, ?_, by decide⟩
  · intro l r
    unfold lotMatches
    rw [Bool.or_eq_true, Bool.and_eq_true, Dec.beq_iff, Dec.beq_iff, Dec.beq_iff]
  · intro r pre l post hpre hm hs
    have hif : (if l.q.toQ = r.quantity.toQ then post
        else { l with q := l.q.sub r.quantity } :: post) =
        (if l.q.beq r.quantity = true then post
        else { l with q := l.q.sub r.quantity } :: post) :=
      if_congr (Dec.beq_iff l.q r.quantity).symm rfl rfl
    rw [hif]
    induction pre with
    | nil =>
      simp only [List.nil_append, get_and_reduce_holding, hm, hs, if_true,
        Bool.false_eq_true, if_false]
      by_cases hq : l.q.beq r.quantity = true
      · simp [hq]
      · simp [hq]
    | cons p pre1 ih =>
      have hp : lotMatches p r = false := hpre p (List.mem_cons_self _ _)
      simp only [List.cons_append, get_and_reduce_holding, hp, Bool.false_eq_true,
        if_false]
      rw [show pre1.append (l :: post) = pre1 ++ l :: post from rfl,
        ih (fun x hx => hpre x (List.mem_cons_of_mem _ hx))]

/-- Witness for C6: the first-match reduction applied to a single lot of
quantity 10 closed by quantity 10. -/
theorem C6_lot_matching_and_reduction_witness :
    get_and_reduce_holding refTen ([] ++ lotTen :: []) =
      .ok (lotTen.price, [] ++ (if lotTen.q.toQ = refTen.quantity.toQ then ([] : List Lot)
        else { lotTen with q := lotTen.q.sub refTen.quantity } :: [])) :=
  C6_lot_matching_and_reduction.2.1 refTen [] lotTen []
    (by intro x hx; cases hx) (by decide) (by decide)

/-- Claim C7: when a close event finds no matching open lot (first
conjunct) or the first matching lot fails the sign-compatible coverage
check (second conjunct), `get_and_reduce_holding` raises a `ValueError`;
`stock_trades` catches it, warns, and emits the posting with a null
cost-basis price while leaving the holdings untouched (third conjunct); the
trade loop never aborts, emitting one cost-basis posting per closing-lot
reference (fourth conjunct). -/
theorem C7_shortfall_warns_not_aborts :
    (∀ (r : LotRef) (h : List Lot), (∀ l ∈ h, lotMatches l r = false) →
      get_and_reduce_holding r h = .error "do not have lot") ∧
    (∀ (r : LotRef) (pre : List Lot) (l : Lot) (post : List Lot),
      (∀ x ∈ pre, lotMatches x r = false) →
      lotMatches l r = true → lotShortfall l r = true →
      get_and_reduce_holding r (pre ++ l :: post) = .error "not enough holdings") ∧
    (∀ (r : LotRef) (h : List Lot) (msg : String),
      get_and_reduce_holding r h = .error msg → stockTradeClose r h = (none, h)) ∧
    (∀ (rs : List LotRef) (h : List Lot),
      (stockTradeCloses rs h).1.length = rs.length) := by
  refine ⟨?_, ?_, ?_, ?_⟩
  · intro r h hall
    induction h with
    | nil => rfl
    | cons l ls ih =>
      have hl : lotMatches l r = false := hall l (List.mem_cons_self _ _)
      simp only [get_and_reduce_holding, hl, Bool.false_eq_true, if_false]
      rw [ih (fun x hx => hall x (List.mem_cons_of_mem _ hx))]
  · intro r pre l post hpre hm hs
    induction pre with
    | nil =>
      simp only [List.nil_append, get_and_reduce_holding, hm, hs, if_true]
    | cons p pre1 ih =>
      have hp : lotMatches p r = false := hpre p (List.mem_cons_self _ _)
      simp only [List.cons_append, get_and_reduce_holding, hp, Bool.false_eq_true,
        if_false]
      rw [show pre1.append (l :: post) = pre1 ++ l :: post from rfl,
        ih (fun x hx => hpre x (List.mem_cons_of_mem _ hx))]
  · intro r h msg herr
    unfold stockTradeClose
    rw [herr]
  · intro rs
    induction rs with
    | nil => intro h; rfl
    | cons r rest ih =>
      intro h
      simp only [stockTradeCloses, List.length_cons, ih]

/-- Witness for C7: an empty holdings list yields a null-priced posting
with holdings unchanged; closing quantity 15 against a lot of 10 raises the
shortfall internally and still yields a null-priced posting; both closes
emit postings. -/
theorem C7_shortfall_warns_not_aborts_witness :
    stockTradeClose refTen [] = (none, []) ∧
    get_and_reduce_holding refFifteen ([] ++ lotTen :: []) = .error "not enough holdings" ∧
    stockTradeClose refFifteen [lotTen] = (none, [lotTen]) ∧
    (stockTradeCloses [refFifteen, refTen] [lotTen]).1.length = 2 :=
  ⟨C7_shortfall_warns_not_aborts.2.2.1 refTen [] "do not have lot"
     (C7_shortfall_warns_not_aborts.1 refTen [] (by intro l hl; cases hl)),
   C7_shortfall_warns_not_aborts.2.1 refFifteen [] lotTen []
     (by intro x hx; cases hx) (by decide) (by decide),
   C7_shortfall_warns_not_aborts.2.2.1 refFifteen [lotTen] "not enough holdings"
     (C7_shortfall_warns_not_aborts.2.1 refFifteen [] lotTen []
       (by intro x hx; cases hx) (by decide) (by decide)),
   C7_shortfall_warns_not_aborts.2.2.2 [refFifteen, refTen] [lotTen]⟩

/-- Claim C8, evaluated at the failing input: two lots opened on one
(date, symbol) with true prices 1.00001 and 1.00002 (distinct, but equal
when rounded to 4 decimal places), the first fully closed.  The prior run
books the close at recorded price `colA`.  Re-importing against the seeded
ledger state books the same close at `colB`: the seeding
(`_adjust_holding`) merges by *rounded* true price while `add_holding`
merges by *exact* true price, so the surviving `colB` lot shadows the
re-opened `colA` lot and the cost-basis choice is not reproduced. -/
theorem C8_seeded_reimport_divergence :
    get_and_reduce_holding refColA priorHoldings =
      .ok (colA, [⟨Dec.one, colB, colB⟩]) ∧
    get_and_reduce_holding refColA rerunHoldings =
      .ok (colB, [⟨Dec.one, colB, colB⟩, ⟨Dec.one, colA, colA⟩]) ∧
    colA ≠ colB := by
  decide

/-- Claim C9: the monobank importer dates its balance assertion exactly one
day after the last transaction of the statement, with the last row's
running balance (first conjunct); every balance the IBKR cash-report path
emits is dated one day after the period-end date (`toDate`) it summarizes
(second conjunct). -/
theorem C9_balance_dated_next_day :
    (∀ (rows : List MonoRow) (last : MonoRow), rows.getLast? = some last →
      monobankExtract rows =
        rows.map (fun r => BEntry.txn r.date) ++
          [BEntry.bal (last.date + 1) last.runningBalance]) ∧
    (∀ (rows : List CashRow) (b : BEntry), b ∈ ibkrBalances rows →
      ∃ r ∈ rows, r.currency ≠ "BASE_SUMMARY" ∧
        b = BEntry.bal (r.toDate + 1) r.endingCash) := by
  constructor
  · intro rows last h
    unfold monobankExtract
    rw [h]
  · intro rows b hb
    unfold ibkrBalances at hb
    rcases List.mem_filterMap.mp hb with ⟨r, hr, hf⟩
    by_cases hc : r.currency = "BASE_SUMMARY"
    · rw [if_pos hc] at hf
      cases hf
    · rw [if_neg hc] at hf
      cases hf
      exact ⟨r, hr, hc, rfl⟩

/-- Witness for C9: a one-row statement whose transaction is dated day 5
yields a balance assertion dated day 6 (modelling 2024-03-05 → 2024-03-06)
with the stated ending amount; the cash-report row dated day 5 yields a
balance dated day 6. -/
theorem C9_balance_dated_next_day_witness :
    monobankExtract [monoRow] =
      [monoRow].map (fun r => BEntry.txn r.date) ++
        [BEntry.bal (monoRow.date + 1) monoRow.runningBalance] ∧
    ∃ r ∈ [cashRow], r.currency ≠ "BASE_SUMMARY" ∧
      BEntry.bal (cashRow.toDate + 1) cashRow.endingCash =
        BEntry.bal (r.toDate + 1) r.endingCash :=
  ⟨C9_balance_dated_next_day.1 [monoRow] monoRow rfl,
   C9_balance_dated_next_day.2 [cashRow]
     (BEntry.bal (cashRow.toDate + 1) cashRow.endingCash) (by decide)⟩

end Uabean
